import Mathlib

/-!
Verification development for the stackvm repository: a shallow embedding of the
instruction model (src/src/instruction.rs), the binary container
(src/src/binary.rs), the stack-machine interpreter (src/src/stack_machine.rs)
and the assembler (src/src/assembler.rs), together with theorems settling the
frozen claims about the natural-language specification.

The checked-in src/src/instruction.rs is a stale revision: it declares
`Jz(Value)`, `Jnz(Value)`, `Jmp(Value)` and lacks the `Call` and `Printstr`
variants, while every other module of the repository (binary.rs's
`read_instruction`, stack_machine.rs's `eval`, assembler.rs's
`parse_instruction`) constructs `Jz`/`Jnz`/`Jmp` without an operand and uses
`Call` and `Printstr`; the crate does not compile against the stale file. Both
instruction models are embedded below: `StackVM.Legacy.Instruction` is the
stale file verbatim, and `StackVM.Instruction` is the enum the remaining
modules compile against (modelled from the spec, which was written from that
consistent state).
-/

namespace StackVM

/-- Decidable equality for `Except`, so that concrete runs of the embedded
fallible functions can be settled by `decide`. -/
instance {ε α : Type _} [DecidableEq ε] [DecidableEq α] : DecidableEq (Except ε α) := fun x y =>
  match x, y with
  | .ok a, .ok b => if h : a = b then .isTrue (by rw [h]) else .isFalse (by simp [h])
  | .error a, .error b => if h : a = b then .isTrue (by rw [h]) else .isFalse (by simp [h])
  | .ok _, .error _ => .isFalse (by simp)
  | .error _, .ok _ => .isFalse (by simp)

/-- Machine word: `pub type Value = i64` (src/src/instruction.rs line 5).
Modelled as `Int`; two's-complement wrapping is made explicit wherever the Rust
`i64` semantics demands it. -/
abbrev Value := Int

/-- Two's-complement wrap of an integer into the `i64` range, the effect of
Rust release-profile wrapping arithmetic and of `as i64` casts. -/
def wrap64 (v : Int) : Int := (v + 2 ^ 63) % 2 ^ 64 - 2 ^ 63

/-- Two's-complement wrap into the `i32` range, the effect of `as i32`. -/
def wrap32 (v : Int) : Int := (v + 2 ^ 31) % 2 ^ 32 - 2 ^ 31

/-- The cast `usize as i64` on a 64-bit host. -/
def usizeToI64 (n : Nat) : Int := if n < 2 ^ 63 then (n : Int) else (n : Int) - 2 ^ 64

/-- The cast `i64 as usize` on a 64-bit host. -/
def i64ToUsize (v : Int) : Nat := (v % 2 ^ 64).toNat

/-- `k` little-endian base-256 digits of a natural number. -/
def bytesLE : Nat → Nat → List Nat
  | 0, _ => []
  | k + 1, u => u % 256 :: bytesLE k (u / 256)

/-- `u16::to_le_bytes`, bytes as `Nat` values below 256. -/
def u16leBytes (n : Nat) : List Nat := bytesLE 2 n

/-- `i64::to_le_bytes` of a value, after two's-complement reduction. -/
def i64leBytes (v : Int) : List Nat := bytesLE 8 (v % 2 ^ 64).toNat

/-- Little-endian bytes of a `usize` on a 64-bit little-endian host (the raw
memory the `Header` of src/src/binary.rs copies with `as_bytes`). -/
def u64leBytes (n : Nat) : List Nat := bytesLE 8 n

/-- Little-endian byte list to `Nat`. -/
def leNat (bs : List Nat) : Nat := bs.foldr (fun b acc => b + 256 * acc) 0

/-- `i64::from_le_bytes` over an 8-byte little-endian list. -/
def i64ofLe (bs : List Nat) : Int :=
  let u := leNat bs
  if u < 2 ^ 63 then (u : Int) else (u : Int) - 2 ^ 64

namespace Legacy

/-- The `Instruction` enum exactly as declared in the checked-in (stale)
src/src/instruction.rs lines 7-21: `Jz`, `Jnz` and `Jmp` carry a `Value`
operand and there is no `Call` or `Printstr` variant. -/
inductive Instruction where
  | Push (arg : Value)
  | Pop
  | Dup
  | Swap
  | Jz (arg : Value)
  | Jnz (arg : Value)
  | Jmp (arg : Value)
  | Add
  | Sub
  | Mul
  | Div
  | Exit
  | Printout
deriving DecidableEq, Repr

/-- `Instruction::mnemonic` (src/src/instruction.rs lines 24-40). -/
def Instruction.mnemonic : Instruction → String
  | .Push _ => "PUSH"
  | .Pop => "POP"
  | .Dup => "DUP"
  | .Swap => "SWAP"
  | .Jz _ => "JZ"
  | .Jnz _ => "JNZ"
  | .Jmp _ => "JMP"
  | .Add => "ADD"
  | .Sub => "SUB"
  | .Mul => "MUL"
  | .Div => "DIV"
  | .Exit => "EXIT"
  | .Printout => "PRINTOUT"

/-- `Instruction::id` (src/src/instruction.rs lines 42-58). -/
def Instruction.id : Instruction → Nat
  | .Push _ => 0
  | .Pop => 1
  | .Dup => 2
  | .Swap => 3
  | .Jz _ => 4
  | .Jnz _ => 5
  | .Jmp _ => 6
  | .Add => 7
  | .Sub => 8
  | .Mul => 9
  | .Div => 10
  | .Exit => 11
  | .Printout => 12

/-- `Instruction::set_arg` (src/src/instruction.rs lines 60-65): the source
patches the operand of `Push` and of `Jmp` (`Self::Push(a) | Self::Jmp(a) =>
*a = arg`); every other variant is left unchanged. -/
def Instruction.set_arg : Instruction → Value → Instruction
  | .Push _, arg => .Push arg
  | .Jmp _, arg => .Jmp arg
  | i, _ => i

/-- `Instruction::as_bytes` (src/src/instruction.rs lines 67-77): `Push`,
`Jz`, `Jnz` and `Jmp` serialize as the 2-byte little-endian id followed by the
8-byte little-endian operand; every other variant as the 2-byte id alone. -/
def Instruction.as_bytes (i : Instruction) : List Nat :=
  match i with
  | .Push arg | .Jz arg | .Jnz arg | .Jmp arg => u16leBytes i.id ++ i64leBytes arg
  | _ => u16leBytes i.id

end Legacy

/-- Modelled from the spec: the current `Instruction` enum is missing from
src/ (src/src/instruction.rs is a stale revision; see the file header). This is
the enum that src/src/binary.rs, src/src/stack_machine.rs and
src/src/assembler.rs construct: per spec §3 and the opcode table of §4.1,
exactly `Push` carries an embedded 64-bit operand and the variants are
Push, Pop, Dup, Swap, Jz, Jnz, Jmp, Add, Sub, Mul, Div, Exit, Printout, Call,
Printstr. -/
inductive Instruction where
  | Push (arg : Value)
  | Pop
  | Dup
  | Swap
  | Jz
  | Jnz
  | Jmp
  | Add
  | Sub
  | Mul
  | Div
  | Exit
  | Printout
  | Call
  | Printstr
deriving DecidableEq, Repr

/-- Modelled from the spec: `Instruction::mnemonic` for the current enum (spec
§4.1 opcode table); it agrees with the stale file on the shared variants and
with the mnemonic strings used throughout src/src/stack_machine.rs. -/
def Instruction.mnemonic : Instruction → String
  | .Push _ => "PUSH"
  | .Pop => "POP"
  | .Dup => "DUP"
  | .Swap => "SWAP"
  | .Jz => "JZ"
  | .Jnz => "JNZ"
  | .Jmp => "JMP"
  | .Add => "ADD"
  | .Sub => "SUB"
  | .Mul => "MUL"
  | .Div => "DIV"
  | .Exit => "EXIT"
  | .Printout => "PRINTOUT"
  | .Call => "CALL"
  | .Printstr => "PRINTSTR"

/-- Modelled from the spec: `Instruction::id` for the current enum, per the
opcode table of spec §4.1; it agrees with the id-to-variant dispatch of
`read_instruction` in src/src/binary.rs lines 129-145. -/
def Instruction.id : Instruction → Nat
  | .Push _ => 0
  | .Pop => 1
  | .Dup => 2
  | .Swap => 3
  | .Jz => 4
  | .Jnz => 5
  | .Jmp => 6
  | .Add => 7
  | .Sub => 8
  | .Mul => 9
  | .Div => 10
  | .Exit => 11
  | .Printout => 12
  | .Call => 13
  | .Printstr => 14

/-- Modelled from the spec: `Instruction::set_arg` for the current enum (spec
§4.1: mutates the operand of a `Push` only, a silent no-op on every other
variant); called by the relocation patching in src/src/assembler.rs line 210. -/
def Instruction.set_arg : Instruction → Value → Instruction
  | .Push _, arg => .Push arg
  | i, _ => i

/-- Modelled from the spec: `Instruction::as_bytes` for the current enum (spec
§4.1: a 2-byte little-endian opcode id followed, only for `Push`, by the 8-byte
little-endian operand); called by `Binary::save_to` in src/src/binary.rs
line 108. -/
def Instruction.as_bytes (i : Instruction) : List Nat :=
  match i with
  | .Push arg => u16leBytes i.id ++ i64leBytes arg
  | _ => u16leBytes i.id

/-- `LoadError` (src/src/binary.rs lines 10-14); `ioEof` stands for the
`Io` variant as produced by a failing `read_exact` (truncated stream). -/
inductive LoadError where
  | load (err : String)
  | ioEof
deriving DecidableEq, Repr

/-- The 5-byte magic tag `MAGIC` (src/src/binary.rs lines 57-63):
`b'.' b'S' b'P' b'V' b'M'`. -/
def MAGIC : List Nat := [46, 83, 80, 86, 77]

/-- `read_instruction` (src/src/binary.rs lines 117-147) over a byte stream:
reads the 2-byte little-endian id, reads the 8-byte operand for id 0 (`Push`)
only, dispatches ids 0-14 and rejects any other id. -/
def read_instruction : List Nat → Except LoadError (Instruction × List Nat)
  | b0 :: b1 :: rest =>
    match b0 + 256 * b1 with
    | 0 =>
      match rest with
      | a0 :: a1 :: a2 :: a3 :: a4 :: a5 :: a6 :: a7 :: rest2 =>
        .ok (.Push (i64ofLe [a0, a1, a2, a3, a4, a5, a6, a7]), rest2)
      | _ => .error .ioEof
    | 1 => .ok (.Pop, rest)
    | 2 => .ok (.Dup, rest)
    | 3 => .ok (.Swap, rest)
    | 4 => .ok (.Jz, rest)
    | 5 => .ok (.Jnz, rest)
    | 6 => .ok (.Jmp, rest)
    | 7 => .ok (.Add, rest)
    | 8 => .ok (.Sub, rest)
    | 9 => .ok (.Mul, rest)
    | 10 => .ok (.Div, rest)
    | 11 => .ok (.Exit, rest)
    | 12 => .ok (.Printout, rest)
    | 13 => .ok (.Call, rest)
    | 14 => .ok (.Printstr, rest)
    | n => .error (.load ("no such mnemonic `" ++ toString n ++ "`"))
  | _ => .error .ioEof

/-- The instruction-reading loop of `Binary::load_from` (src/src/binary.rs
lines 93-95): decode exactly `n` instructions from the stream. -/
def readInstructions : Nat → List Nat → Except LoadError (List Instruction × List Nat)
  | 0, bs => .ok ([], bs)
  | n + 1, bs => do
    let (i, bs') ← read_instruction bs
    let (is, bs'') ← readInstructions n bs'
    .ok (i :: is, bs'')

/-- `Binary::load_from` (src/src/binary.rs lines 79-98) over a byte stream:
check the 5-byte magic, read the raw `usize` instruction count (64-bit
little-endian host), then decode exactly that many instructions; bytes after
them are ignored, exactly as the file reader leaves them unread. -/
def load_from (bytes : List Nat) : Except LoadError (List Instruction) :=
  if bytes.length < 5 then .error .ioEof
  else if bytes.take 5 ≠ MAGIC then .error (.load "wrong file format")
  else
    let rest := bytes.drop 5
    if rest.length < 8 then .error .ioEof
    else
      match readInstructions (leNat (rest.take 8)) (rest.drop 8) with
      | .ok (is, _) => .ok is
      | .error e => .error e

/-- `Binary::save_to` of `Binary::from_instructions` (src/src/binary.rs
lines 66-73 and 100-114) as the byte stream it writes: magic, header (the raw
`usize` count, 64-bit little-endian host), then each instruction's
`as_bytes` back to back — here with the current enum's encoding. -/
def save_to (instructions : List Instruction) : List Nat :=
  MAGIC ++ u64leBytes instructions.length ++ (instructions.map Instruction.as_bytes).flatten

/-- `Binary::save_to` as compiled against the stale src/src/instruction.rs:
identical container layout, but each instruction serialized by the stale
`Instruction::as_bytes` (src/src/instruction.rs lines 67-77), which appends the
8-byte operand after `Jz`, `Jnz` and `Jmp` as well. -/
def save_to_legacy (instructions : List Legacy.Instruction) : List Nat :=
  MAGIC ++ u64leBytes instructions.length ++
    (instructions.map Legacy.Instruction.as_bytes).flatten

/-- `DebugInfo` (src/src/debug_info.rs lines 4-9): a breakpoint set, an
address-to-label map and a verbosity flag. The hash containers are modelled as
duplicate-free lists. -/
structure DebugInfo where
  breakpoints : List Int
  labels : List (Int × String)
  verbose : Bool
deriving DecidableEq, Repr

/-- `DebugInfo::default()`. -/
def DebugInfo.default : DebugInfo := ⟨[], [], false⟩

/-- `DebugInfo::add_breakpoint` (src/src/debug_info.rs lines 12-14):
`HashSet::insert`. -/
def DebugInfo.add_breakpoint (d : DebugInfo) (addr : Int) : DebugInfo :=
  if d.breakpoints.contains addr then d else { d with breakpoints := addr :: d.breakpoints }

/-- `DebugInfo::breakpoint_at` (src/src/debug_info.rs lines 16-18):
`HashSet::contains`. -/
def DebugInfo.breakpoint_at (d : DebugInfo) (addr : Int) : Bool := d.breakpoints.contains addr

/-- `DebugInfo::add_label` (src/src/debug_info.rs lines 20-22):
`HashMap::insert`, overwriting any earlier binding of the address. -/
def DebugInfo.add_label (d : DebugInfo) (addr : Int) (label : String) : DebugInfo :=
  { d with labels := (addr, label) :: d.labels.filter (fun p => p.1 != addr) }

/-- `DebugInfo::label_at` (src/src/debug_info.rs lines 24-26). -/
def DebugInfo.label_at (d : DebugInfo) (addr : Int) : Option String :=
  (d.labels.find? (fun p => p.1 == addr)).map Prod.snd

/-- `DebugInfo::verbose` (src/src/debug_info.rs lines 28-30). -/
def DebugInfo.verboseFlag (d : DebugInfo) : Bool := d.verbose

/-- `DebugInfo::set_verbose` (src/src/debug_info.rs lines 32-34). -/
def DebugInfo.set_verbose (d : DebugInfo) (v : Bool) : DebugInfo := { d with verbose := v }

/-- `ExecError` (src/src/stack_machine.rs lines 8-12): faulting address and a
human-readable cause. -/
structure ExecError where
  addr : Nat
  err : String
deriving DecidableEq, Repr

/-- Outcome of evaluating one instruction. `fault` is the `Err(ExecError)`
channel of `ExecResult`; `panicked` is a Rust panic (host crash), which the
source's `ExecResult` cannot carry — it aborts the process. -/
inductive EvalResult where
  | ok
  | fault (e : ExecError)
  | panicked (msg : String)
deriving DecidableEq, Repr

/-- Abstract observable output of the interpreter. The exact rendered text
(colors, padding, column layout) is the presentation layer the spec's §1
excludes from the core; each event captures the semantic content printed. -/
inductive OutEvent where
  | disassembly (instructions : List Instruction) (ip : Nat) (stack : List Value)
  | breakpointPrompt
  | printValue (v : Value)
  | printChar (c : Char)
deriving DecidableEq, Repr

/-- The mutable state of `StackMachine` (src/src/stack_machine.rs lines 33-42).
`term_width` only pads the disassembly rendering (presentation layer). -/
structure StackMachine where
  instruction_ptr : Nat
  stack : List Value
  exited : Option Int
  term_width : Nat
  debug_info : DebugInfo
deriving DecidableEq, Repr

/-- `StackMachine::new` (src/src/stack_machine.rs lines 45-54); the detected
terminal width is presentation-only, fixed here at the source's fallback 80. -/
def StackMachine.new (debug_info : DebugInfo) : StackMachine :=
  { instruction_ptr := 0, stack := [], exited := none, term_width := 80, debug_info }

/-- The interpreter's world: machine state plus the console input lines not yet
consumed and the output events emitted so far. -/
structure World where
  machine : StackMachine
  input : List String
  output : List OutEvent
deriving DecidableEq, Repr

/-- `StackMachine::panic` (src/src/stack_machine.rs lines 112-118): set the
sentinel exit code 255 and build the `ExecError` at the current pointer. -/
def StackMachine.panic (m : StackMachine) (err : String) : ExecError × StackMachine :=
  (⟨m.instruction_ptr, err⟩, { m with exited := some 255 })

/-- `StackMachine::pop_stack` (src/src/stack_machine.rs lines 120-122): pop the
operand stack, or fault with the message naming the given mnemonic. -/
def StackMachine.pop_stack (m : StackMachine) (mnemonic : String) :
    Except ExecError Value × StackMachine :=
  match m.stack with
  | [] =>
    let (e, m') := m.panic ("not enough values on stack for `" ++ mnemonic ++ "`")
    (.error e, m')
  | v :: rest => (.ok v, { m with stack := rest })

/-- `StackMachine::bin_op` (src/src/stack_machine.rs lines 124-141): pop `a`
(top) then `b`, compute `a OP b`, push, advance. Rust `i64` semantics: `+`,
`-`, `*` wrap in the release profile; `a / b` panics on a zero divisor
("attempt to divide by zero") and on `i64::MIN / -1`, and otherwise truncates
toward zero. -/
def bin_op (op : Instruction) (m : StackMachine) : EvalResult × StackMachine :=
  match m.pop_stack op.mnemonic with
  | (.error e, m1) => (.fault e, m1)
  | (.ok a, m1) =>
    match m1.pop_stack op.mnemonic with
    | (.error e, m2) => (.fault e, m2)
    | (.ok b, m2) =>
      match op with
      | .Add =>
        (.ok, { m2 with stack := wrap64 (a + b) :: m2.stack,
                        instruction_ptr := m2.instruction_ptr + 1 })
      | .Sub =>
        (.ok, { m2 with stack := wrap64 (a - b) :: m2.stack,
                        instruction_ptr := m2.instruction_ptr + 1 })
      | .Mul =>
        (.ok, { m2 with stack := wrap64 (a * b) :: m2.stack,
                        instruction_ptr := m2.instruction_ptr + 1 })
      | .Div =>
        if b = 0 then (.panicked "attempt to divide by zero", m2)
        else if a = -(2 ^ 63) ∧ b = -1 then (.panicked "attempt to divide with overflow", m2)
        else (.ok, { m2 with stack := a.tdiv b :: m2.stack,
                             instruction_ptr := m2.instruction_ptr + 1 })
      | _ =>
        let (e, m3) := m2.panic "unreachable"
        (.fault e, m3)

/-- Whitespace trim over the character list (`str::trim`; ASCII whitespace,
which is all the sources use). -/
def trimChars (cs : List Char) : List Char :=
  ((cs.dropWhile Char.isWhitespace).reverse.dropWhile Char.isWhitespace).reverse

/-- `str::trim` on a string. -/
def trimStr (s : String) : String := String.mk (trimChars s.data)

/-- `str::to_uppercase` (ASCII range, which is all the prompt compares). -/
def upperStr (s : String) : String := String.mk (s.data.map Char.toUpper)

/-- The confirmation loop of `StackMachine::handle_breakpoint`
(src/src/stack_machine.rs lines 147-162) over the remaining input lines: each
iteration prints the prompt and reads a line; `Y` or the empty line continues,
`N` aborts via `panic`, anything else repeats. Exhausted input reads as the
empty line (`read_line` leaves the buffer empty at end of input), which
continues. -/
def bpLoop (m : StackMachine) :
    List String → Except ExecError Unit × StackMachine × List String × List OutEvent
  | [] => (.ok (), m, [], [.breakpointPrompt])
  | s :: rest =>
    let t := upperStr (trimStr s)
    if t = "Y" ∨ t = "" then (.ok (), m, rest, [.breakpointPrompt])
    else if t = "N" then
      let (e, m') := m.panic "execution aborted at breakpoint"
      (.error e, m', rest, [.breakpointPrompt])
    else
      let (r, m', rem, out) := bpLoop m rest
      (r, m', rem, .breakpointPrompt :: out)

/-- `StackMachine::handle_breakpoint` (src/src/stack_machine.rs lines 143-163):
render the disassembly and stack snapshot, then run the confirmation loop. -/
def handle_breakpoint (instructions : List Instruction) (w : World) :
    Except ExecError Unit × World :=
  let w1 := { w with output :=
    w.output ++ [OutEvent.disassembly instructions w.machine.instruction_ptr w.machine.stack] }
  let (r, m', input', out) := bpLoop w1.machine w1.input
  (r, { machine := m', input := input', output := w1.output ++ out })

/-- The `Printstr` pop loop (src/src/stack_machine.rs lines 226-231): pop and
print characters until a popped value is 0; an empty stack is an underflow
fault naming PRINTSTR at the given address. -/
def printstrAux (ip : Nat) : List Value → Except ExecError Unit × List Value × List OutEvent
  | [] => (.error ⟨ip, "not enough values on stack for `PRINTSTR`"⟩, [], [])
  | v :: rest =>
    if v = 0 then (.ok (), rest, [])
    else
      let (r, s, out) := printstrAux ip rest
      (r, s, .printChar (Char.ofNat ((v % 256).toNat)) :: out)

/-- The instruction dispatch of `StackMachine::eval` (src/src/stack_machine.rs
lines 172-237), after the breakpoint check. The second condition pop of the
`Jnz` arm passes the mnemonic string "JZ", exactly as source line 208 does. -/
def evalInstr (instruction : Instruction) (w : World) : EvalResult × World :=
  let m := w.machine
  match instruction with
  | .Push arg =>
    (.ok, { w with machine :=
      { m with stack := arg :: m.stack, instruction_ptr := m.instruction_ptr + 1 } })
  | .Pop =>
    match m.pop_stack "POP" with
    | (.error e, m') => (.fault e, { w with machine := m' })
    | (.ok _, m') =>
      (.ok, { w with machine := { m' with instruction_ptr := m'.instruction_ptr + 1 } })
  | .Add => let (r, m') := bin_op .Add m; (r, { w with machine := m' })
  | .Sub => let (r, m') := bin_op .Sub m; (r, { w with machine := m' })
  | .Mul => let (r, m') := bin_op .Mul m; (r, { w with machine := m' })
  | .Div => let (r, m') := bin_op .Div m; (r, { w with machine := m' })
  | .Dup =>
    match m.pop_stack "DUP" with
    | (.error e, m') => (.fault e, { w with machine := m' })
    | (.ok v, m') =>
      (.ok, { w with machine :=
        { m' with stack := v :: v :: m'.stack, instruction_ptr := m'.instruction_ptr + 1 } })
  | .Swap =>
    match m.pop_stack "SWAP" with
    | (.error e, m1) => (.fault e, { w with machine := m1 })
    | (.ok a, m1) =>
      match m1.pop_stack "SWAP" with
      | (.error e, m2) => (.fault e, { w with machine := m2 })
      | (.ok b, m2) =>
        (.ok, { w with machine :=
          { m2 with stack := b :: a :: m2.stack, instruction_ptr := m2.instruction_ptr + 1 } })
  | .Jz =>
    match m.pop_stack "JZ" with
    | (.error e, m1) => (.fault e, { w with machine := m1 })
    | (.ok addr, m1) =>
      match m1.pop_stack "JZ" with
      | (.error e, m2) => (.fault e, { w with machine := m2 })
      | (.ok value, m2) =>
        if value = 0 then
          (.ok, { w with machine := { m2 with instruction_ptr := i64ToUsize addr } })
        else
          (.ok, { w with machine := { m2 with instruction_ptr := m2.instruction_ptr + 1 } })
  | .Jnz =>
    match m.pop_stack "JNZ" with
    | (.error e, m1) => (.fault e, { w with machine := m1 })
    | (.ok addr, m1) =>
      match m1.pop_stack "JZ" with
      | (.error e, m2) => (.fault e, { w with machine := m2 })
      | (.ok value, m2) =>
        if value ≠ 0 then
          (.ok, { w with machine := { m2 with instruction_ptr := i64ToUsize addr } })
        else
          (.ok, { w with machine := { m2 with instruction_ptr := m2.instruction_ptr + 1 } })
  | .Jmp =>
    match m.pop_stack "JMP" with
    | (.error e, m1) => (.fault e, { w with machine := m1 })
    | (.ok addr, m1) =>
      (.ok, { w with machine := { m1 with instruction_ptr := i64ToUsize addr } })
  | .Call =>
    match m.pop_stack "CALL" with
    | (.error e, m1) => (.fault e, { w with machine := m1 })
    | (.ok addr, m1) =>
      (.ok, { w with machine :=
        { m1 with stack := (usizeToI64 m1.instruction_ptr + 1) :: m1.stack,
                  instruction_ptr := i64ToUsize addr } })
  | .Printout =>
    match m.pop_stack "PRINTOUT" with
    | (.error e, m') => (.fault e, { w with machine := m' })
    | (.ok v, m') =>
      let m'' : StackMachine := { m' with instruction_ptr := m'.instruction_ptr + 1 }
      (.ok, { w with machine := m'', output := w.output ++ [OutEvent.printValue v] })
  | .Printstr =>
    match printstrAux m.instruction_ptr m.stack with
    | (.error e, s, out) =>
      let m' : StackMachine := { m with stack := s, exited := some 255 }
      (.fault e, { w with machine := m', output := w.output ++ out })
    | (.ok _, s, out) =>
      let m' : StackMachine := { m with stack := s, instruction_ptr := m.instruction_ptr + 1 }
      (.ok, { w with machine := m', output := w.output ++ out })
  | .Exit =>
    match m.stack with
    | [] =>
      (.ok, { w with machine :=
        { m with exited := some (wrap32 0), instruction_ptr := m.instruction_ptr + 1 } })
    | v :: rest =>
      (.ok, { w with machine :=
        { m with stack := rest, exited := some (wrap32 v),
                 instruction_ptr := m.instruction_ptr + 1 } })

/-- `StackMachine::eval` (src/src/stack_machine.rs lines 165-240): if the
current address has a registered breakpoint, run the interactive handler (note:
the source checks only `breakpoint_at`, with no test of the verbosity flag),
then dispatch on the instruction. -/
def eval (instruction : Instruction) (instructions : List Instruction) (w : World) :
    EvalResult × World :=
  if w.machine.debug_info.breakpoint_at (usizeToI64 w.machine.instruction_ptr) then
    match handle_breakpoint instructions w with
    | (.error e, w') => (.fault e, w')
    | (.ok _, w') => evalInstr instruction w'
  else evalInstr instruction w

/-- Result of a whole run. `fuelOut` marks exhaustion of the step budget of the
embedding (the source's `while` loop has no such bound). -/
inductive RunResult where
  | exit (code : Int)
  | fault (e : ExecError)
  | panicked (msg : String)
  | fuelOut
deriving DecidableEq, Repr

/-- The `while` loop of `StackMachine::run` plus its closing expression
(src/src/stack_machine.rs lines 105-109): step while no exit code is set and
the pointer is in bounds; afterwards, a set exit code is the result and an
unset one is the "no instruction left" fault. -/
def runLoop : Nat → List Instruction → World → RunResult × World
  | 0, _, w => (.fuelOut, w)
  | fuel + 1, instructions, w =>
    if h : w.machine.exited = none ∧ w.machine.instruction_ptr < instructions.length then
      match eval (instructions.get ⟨w.machine.instruction_ptr, h.2⟩) instructions w with
      | (.ok, w') => runLoop fuel instructions w'
      | (.fault e, w') => (.fault e, w')
      | (.panicked msg, w') => (.panicked msg, w')
    else
      match w.machine.exited with
      | some code => (.exit code, w)
      | none =>
        let (e, m') := w.machine.panic "no instruction left"
        (.fault e, { w with machine := m' })

/-- `StackMachine::run` (src/src/stack_machine.rs lines 100-110): print the
disassembly when verbose, then the fetch-eval loop. -/
def run (fuel : Nat) (instructions : List Instruction) (w : World) : RunResult × World :=
  let w1 :=
    if w.machine.debug_info.verbose then
      { w with output := w.output ++
        [.disassembly instructions w.machine.instruction_ptr w.machine.stack] }
    else w
  runLoop fuel instructions w1

/-- The payload of the `ParseError::Parse` variant (src/src/assembler.rs
lines 10-18), with the formatted message kept structured so that theorems can
inspect what an error names. -/
inductive PErr where
  | tooManyArguments (tok : String)
  | noSuchMnemonic (mnemonic : String)
  | pushExpectsOneArgument
  | unknownEscapeCharacter (code : Char)
  | expectStringLiteral (arg : String)
  | noSuchMetainstruction (mnemonic : String)
  | couldNotResolveLabels (relocs : List (String × List Int))
deriving DecidableEq, Repr

/-- `ParseError::Parse { err, file, lineno }` (src/src/assembler.rs
lines 12-16). -/
structure ParseError where
  err : PErr
  file : String
  lineno : Nat
deriving DecidableEq, Repr

/-- Failure channel of the embedded assembler: a reported `ParseError`, or a
Rust panic (`unwrap` of `None` in `parse_str_lit` on a trailing backslash),
which aborts the process rather than being reported. -/
inductive AsmErr where
  | parse (e : ParseError)
  | hostPanic
deriving DecidableEq, Repr

/-- The `AsmParser` state (src/src/assembler.rs lines 45-53); the hash maps
are modelled as duplicate-free association lists. -/
structure AsmParser where
  filepath : String
  lineno : Nat
  labels : List (String × Int)
  relocs : List (String × List Int)
  debug_info : DebugInfo
deriving DecidableEq, Repr

/-- `AsmParser::new` (src/src/assembler.rs lines 56-64). -/
def AsmParser.new (filepath : String) : AsmParser :=
  ⟨filepath, 0, [], [], DebugInfo.default⟩

/-- `AsmParser::parse_error` (src/src/assembler.rs lines 87-93). -/
def AsmParser.parse_error (st : AsmParser) (err : PErr) : ParseError :=
  ⟨err, st.filepath, st.lineno⟩

/-- `HashMap::get` on an association list. -/
def lookupA {β : Type _} (l : List (String × β)) (k : String) : Option β :=
  (l.find? (fun p => p.1 == k)).map Prod.snd

/-- `HashMap::insert` on an association list: overwrite any earlier binding. -/
def insertA {β : Type _} (l : List (String × β)) (k : String) (v : β) : List (String × β) :=
  (k, v) :: l.filter (fun p => p.1 != k)

/-- The relocation update of `label_addr` (src/src/assembler.rs lines 97-99):
append the address to an existing entry, or insert a fresh singleton entry. -/
def relocAdd (relocs : List (String × List Int)) (k : String) (addr : Int) :
    List (String × List Int) :=
  if (lookupA relocs k).isSome then
    relocs.map (fun p => if p.1 == k then (p.1, p.2 ++ [addr]) else p)
  else (k, [addr]) :: relocs

/-- `HashMap::remove` on the relocation table, returning the removed entry's
address list as `remove` does. -/
def relocTake (relocs : List (String × List Int)) (k : String) :
    List (String × List Int) × Option (List Int) :=
  (relocs.filter (fun p => p.1 != k), lookupA relocs k)

/-- `AsmParser::label_addr` (src/src/assembler.rs lines 95-102): a resolved
label yields its address; an unresolved one registers the referencing
instruction address in the relocation table and yields the placeholder 0. -/
def AsmParser.label_addr (st : AsmParser) (label : String) (instruction_addr : Int) :
    Int × AsmParser :=
  match lookupA st.labels label with
  | some a => (a, st)
  | none => (0, { st with relocs := relocAdd st.relocs label instruction_addr })

/-- `str::parse::<i64>`: an optional sign, one or more ASCII digits, and the
value must fit in `i64`; anything else is a parse failure. -/
def parseI64 (s : String) : Option Int :=
  let p : Int × List Char :=
    match s.data with
    | '+' :: r => (1, r)
    | '-' :: r => (-1, r)
    | r => (1, r)
  if p.2 = [] ∨ ¬ p.2.all Char.isDigit then none
  else
    let v : Int := p.1 * (p.2.foldl (fun a c => a * 10 + ((c.toNat : Int) - 48)) 0)
    if -(2 ^ 63) ≤ v ∧ v < 2 ^ 63 then some v else none

/-- `str::starts_with(char)`. -/
def startsWithChar (s : String) (c : Char) : Bool := s.data.head? == some c

/-- `str::ends_with(char)`. -/
def endsWithChar (s : String) (c : Char) : Bool := s.data.getLast? == some c

/-- The argument conversion at the head of `AsmParser::parse_instruction`
(src/src/assembler.rs line 107): `arg.map(|arg| arg.parse::<Value>()
.unwrap_or_else(|_| self.label_addr(...)))` — the token is first tried as an
integer literal and otherwise resolved through `label_addr`, for every
mnemonic, before the mnemonic is even matched. -/
def AsmParser.parse_arg (st : AsmParser) (arg : Option String) (instruction_addr : Int) :
    Option Value × AsmParser :=
  match arg with
  | none => (none, st)
  | some a =>
    match parseI64 a with
    | some v => (some v, st)
    | none =>
      let q := st.label_addr a instruction_addr
      (some q.1, q.2)

/-- `AsmParser::parse_instruction` (src/src/assembler.rs lines 104-126). -/
def AsmParser.parse_instruction (st : AsmParser) (mnemonic : String) (arg : Option String)
    (instruction_addr : Int) : Except AsmErr (AsmParser × Instruction) :=
  let p : Option Value × AsmParser := st.parse_arg arg instruction_addr
  let st1 := p.2
  match mnemonic with
  | "PUSH" =>
    match p.1 with
    | some v => .ok (st1, .Push v)
    | none => .error (.parse (st1.parse_error .pushExpectsOneArgument))
  | "POP" => .ok (st1, .Pop)
  | "DUP" => .ok (st1, .Dup)
  | "SWAP" => .ok (st1, .Swap)
  | "JZ" => .ok (st1, .Jz)
  | "JNZ" => .ok (st1, .Jnz)
  | "JMP" => .ok (st1, .Jmp)
  | "CALL" => .ok (st1, .Call)
  | "ADD" => .ok (st1, .Add)
  | "SUB" => .ok (st1, .Sub)
  | "MUL" => .ok (st1, .Mul)
  | "DIV" => .ok (st1, .Div)
  | "EXIT" => .ok (st1, .Exit)
  | "PRINTOUT" => .ok (st1, .Printout)
  | "PRINTSTR" => .ok (st1, .Printstr)
  | _ => .error (.parse (st1.parse_error (.noSuchMnemonic mnemonic)))

/-- `AsmParser::escape_code` (src/src/assembler.rs lines 128-136). -/
def AsmParser.escape_code (st : AsmParser) (code : Char) : Except AsmErr Char :=
  match code with
  | 'n' => .ok '\n'
  | 't' => .ok '\t'
  | '0' => .ok (Char.ofNat 0)
  | '\\' => .ok '\\'
  | c => .error (.parse (st.parse_error (.unknownEscapeCharacter c)))

/-- The character loop of `parse_str_lit` (src/src/assembler.rs lines 147-149):
copy characters, expanding backslash escapes; a trailing lone backslash hits
`chars.next().unwrap()` on `None`, a Rust panic. -/
def strLitContentAux (st : AsmParser) : List Char → Except AsmErr (List Char)
  | [] => .ok []
  | '\\' :: [] => .error .hostPanic
  | '\\' :: c :: rest => do
    let e ← st.escape_code c
    let t ← strLitContentAux st rest
    .ok (e :: t)
  | c :: rest => do
    let t ← strLitContentAux st rest
    .ok (c :: t)

/-- `AsmParser::parse_str_lit` (src/src/assembler.rs lines 138-153): the token
must start and end with a double quote; the enclosed characters are unescaped
and a NUL terminator is appended. -/
def AsmParser.parse_str_lit (st : AsmParser) (arg : String) : Except AsmErr (List Char) :=
  if ¬ (startsWithChar arg '"' ∧ endsWithChar arg '"') then
    .error (.parse (st.parse_error (.expectStringLiteral arg)))
  else do
    let cs ← strLitContentAux st (arg.data.drop 1).dropLast
    .ok (cs ++ [Char.ofNat 0])

/-- `AsmParser::parse_metainstruction` (src/src/assembler.rs lines 155-172):
`@PushStr` with an argument expands the literal, reversed, into `Push`
instructions of the character codes; `@Break` with no argument registers a
breakpoint at the current address and expands to nothing. -/
def AsmParser.parse_metainstruction (st : AsmParser) (mnemonic : String) (arg : Option String)
    (instruction_addr : Int) : Except AsmErr (AsmParser × List Instruction) :=
  if mnemonic = "PushStr" ∧ arg.isSome then do
    let cs ← st.parse_str_lit (arg.getD "")
    .ok (st, cs.reverse.map (fun c => .Push (c.toNat : Int)))
  else if mnemonic = "Break" ∧ arg.isNone then
    .ok ({ st with debug_info := st.debug_info.add_breakpoint instruction_addr }, [])
  else .error (.parse (st.parse_error (.noSuchMetainstruction mnemonic)))

/-- `str::split_whitespace` tokenizer over the character list. -/
def wordsAux (cur : List Char) (acc : List String) : List Char → List String
  | [] => if cur = [] then acc else String.mk cur.reverse :: acc
  | c :: rest =>
    if c.isWhitespace then
      if cur = [] then wordsAux [] acc rest
      else wordsAux [] (String.mk cur.reverse :: acc) rest
    else wordsAux (c :: cur) acc rest

/-- `str::split_whitespace` (the source further trims and drops empty tokens,
which split_whitespace already guarantees). -/
def splitWhitespace (s : String) : List String := (wordsAux [] [] s.data).reverse

/-- The string-literal re-joining loop of `parse_line` (src/src/assembler.rs
lines 190-198): append subsequent tokens, space-separated, until one ends with
a double quote. -/
def joinStrLit (cur : String) : List String → String
  | [] => cur
  | next :: rest =>
    let cur' := cur ++ " " ++ next
    if endsWithChar next '"' then cur' else joinStrLit cur' rest

/-- The syntactic classification a source line receives in `parse_line`
(src/src/assembler.rs lines 174-201), before any state is touched: blank or
comment, a too-many-arguments error, a label definition, a metainstruction, or
a plain instruction, each with its computed argument token. -/
inductive LineShape where
  | blank
  | tooMany (tok : String)
  | labelDef (name : String)
  | meta (name : String) (arg : Option String)
  | instr (mnemonic : String) (arg : Option String)
deriving DecidableEq, Repr

/-- The tokenization and classification steps of `parse_line`
(src/src/assembler.rs lines 174-224): trim; skip comments and blanks; split on
whitespace; drop a comment argument; greedily re-join a string literal whose
closing quote is in a later token; reject a second non-comment argument; then
classify by the trailing `:` (label), leading `@` (metainstruction) or neither
(instruction). -/
def lineShape (line : String) : LineShape :=
  let l := trimStr line
  if startsWithChar l ';' ∨ l = "" then .blank
  else
    match splitWhitespace l with
    | [] => .blank
    | mnemonic :: rest =>
      let argCheck : Except String (Option String) :=
        match rest.head? with
        | none => .ok none
        | some a =>
          if startsWithChar a ';' then .ok none
          else if startsWithChar a '"' ∧ ¬ endsWithChar a '"' then
            .ok (some (joinStrLit a (rest.drop 1)))
          else
            match rest.get? 1 with
            | some next => if ¬ startsWithChar next ';' then .error next else .ok (some a)
            | none => .ok (some a)
      match argCheck with
      | .error tok => .tooMany tok
      | .ok arg =>
        if endsWithChar mnemonic ':' then .labelDef (String.mk mnemonic.data.dropLast)
        else if startsWithChar mnemonic '@' then .meta (String.mk (mnemonic.data.drop 1)) arg
        else .instr mnemonic arg

/-- In-place relocation patch of an already-emitted instruction:
`instructions.get_mut(idx)` followed by `set_arg`; out-of-bounds indices are
silently skipped, as `get_mut` returns `None` for them. -/
def setArgAt : List Instruction → Nat → Value → List Instruction
  | [], _, _ => []
  | i :: rest, 0, arg => i.set_arg arg :: rest
  | i :: rest, n + 1, arg => i :: setArgAt rest n arg

/-- `AsmParser::parse_line` (src/src/assembler.rs lines 174-225): classify the
line, then act: a label definition patches every pending reference to it with
the current program length and records the label; a metainstruction or
instruction produces instructions to append. Returns the new state, the
(possibly patched) instruction list and the instructions to append. -/
def AsmParser.parse_line (st : AsmParser) (line : String) (instructions : List Instruction) :
    Except AsmErr (AsmParser × List Instruction × Option (List Instruction)) :=
  match lineShape line with
  | .blank => .ok (st, instructions, none)
  | .tooMany tok => .error (.parse (st.parse_error (.tooManyArguments tok)))
  | .labelDef label =>
    let instruction_addr : Int := instructions.length
    let q := relocTake st.relocs label
    let instructions' :=
      match q.2 with
      | none => instructions
      | some ris => ris.foldl (fun ins ri => setArgAt ins (i64ToUsize ri) instruction_addr)
          instructions
    let st' := { st with
      relocs := q.1,
      labels := insertA st.labels label instruction_addr,
      debug_info := st.debug_info.add_label instruction_addr label }
    .ok (st', instructions', none)
  | .meta name arg => do
    let (st', out) ← st.parse_metainstruction name arg instructions.length
    .ok (st', instructions, some out)
  | .instr mnemonic arg => do
    let (st', i) ← st.parse_instruction mnemonic arg instructions.length
    .ok (st', instructions, some [i])

/-- The line loop of `AsmParser::assemble` (src/src/assembler.rs lines 71-76):
set the 1-based line number, parse the line, and extend the program with
whatever it produced. -/
def processLines : AsmParser → List Instruction → List String →
    Except AsmErr (AsmParser × List Instruction)
  | st, instructions, [] => .ok (st, instructions)
  | st, instructions, line :: rest => do
    let st1 := { st with lineno := st.lineno + 1 }
    let (st2, patched, out) ← st1.parse_line line instructions
    processLines st2 (patched ++ out.getD []) rest

/-- `AsmParser::assemble` (src/src/assembler.rs lines 66-81) over the file's
lines: run the line loop, then require the relocation table to be empty,
failing with the still-unresolved labels otherwise. -/
def assemble (filepath : String) (lines : List String) : Except AsmErr (List Instruction) := do
  let (st, instructions) ← processLines (AsmParser.new filepath) [] lines
  if st.relocs = [] then .ok instructions
  else .error (.parse (st.parse_error (.couldNotResolveLabels st.relocs)))

/-- The label referenced by a line, if any: only the instruction branch of
`parse_line` consults `label_addr`, and only when the argument token is present
and fails integer parsing (src/src/assembler.rs line 107). -/
def lineRef? (line : String) : Option String :=
  match lineShape line with
  | .instr _ (some a) => if (parseI64 a).isNone then some a else none
  | _ => none

/-- The label a line defines, if any. -/
def lineLabel? (line : String) : Option String :=
  match lineShape line with
  | .labelDef n => some n
  | _ => none

/-- A label name is referenced by the source when some line references it. -/
def referencesLabel (lines : List String) (n : String) : Prop :=
  ∃ l ∈ lines, lineRef? l = some n

/-- A label name is defined by the source when some line defines it. -/
def definesLabel (lines : List String) (n : String) : Prop :=
  ∃ l ∈ lines, lineLabel? l = some n

instance (lines : List String) (n : String) : Decidable (referencesLabel lines n) :=
  inferInstanceAs (Decidable (∃ l ∈ lines, lineRef? l = some n))

instance (lines : List String) (n : String) : Decidable (definesLabel lines n) :=
  inferInstanceAs (Decidable (∃ l ∈ lines, lineLabel? l = some n))

/-- One successful step of the run loop: the machine is running, the fetched
instruction evaluates with an `ok` result. -/
def StepOk (instrs : List Instruction) (w w' : World) : Prop :=
  ∃ i, w.machine.exited = none ∧ instrs[w.machine.instruction_ptr]? = some i ∧
    eval i instrs w = (.ok, w')

/-! Supporting lemmas: the byte-level round trip of the consistent
encoder/decoder pair (the spec-modelled `Instruction.as_bytes` against the
source's `read_instruction`). -/

theorem leNat_bytesLE (k : Nat) : ∀ u, u < 256 ^ k → leNat (bytesLE k u) = u := by
  induction k with
  | zero => intro u h; simp [bytesLE, leNat]; omega
  | succ k ih =>
    intro u h
    have hd : u / 256 < 256 ^ k := by
      rw [Nat.div_lt_iff_lt_mul (by norm_num)]
      calc u < 256 ^ (k + 1) := h
        _ = 256 ^ k * 256 := by ring
    show u % 256 + 256 * leNat (bytesLE k (u / 256)) = u
    rw [ih _ hd]
    omega

theorem i64ofLe_i64leBytes (v : Int) (h1 : -(2 ^ 63) ≤ v) (h2 : v < 2 ^ 63) :
    i64ofLe (i64leBytes v) = v := by
  have hb : (v % 2 ^ 64).toNat < 256 ^ 8 := by
    have h : (256 : Nat) ^ 8 = 2 ^ 64 := by norm_num
    rw [h]
    omega
  unfold i64ofLe i64leBytes
  rw [leNat_bytesLE 8 _ hb]
  dsimp only
  split_ifs <;> omega

theorem read_instruction_as_bytes (i : Instruction) (rest : List Nat)
    (h : ∀ v, i = .Push v → -(2 ^ 63) ≤ v ∧ v < 2 ^ 63) :
    read_instruction (i.as_bytes ++ rest) = .ok (i, rest) := by
  cases i
  case Push v =>
    obtain ⟨h1, h2⟩ := h v rfl
    have key := i64ofLe_i64leBytes v h1 h2
    simp [read_instruction, Instruction.as_bytes, Instruction.id, u16leBytes, i64leBytes,
      bytesLE] at key ⊢
    exact key
  all_goals simp [Instruction.as_bytes, Instruction.id, u16leBytes, bytesLE, read_instruction]

theorem bytesLE_length (k : Nat) : ∀ u, (bytesLE k u).length = k := by
  induction k with
  | zero => intro u; rfl
  | succ k ih => intro u; simp [bytesLE, ih]

theorem readInstructions_as_bytes (is : List Instruction) (rest : List Nat)
    (h : ∀ v, Instruction.Push v ∈ is → -(2 ^ 63) ≤ v ∧ v < 2 ^ 63) :
    readInstructions is.length ((is.map Instruction.as_bytes).flatten ++ rest) =
      .ok (is, rest) := by
  induction is with
  | nil => simp [readInstructions]
  | cons i is ih =>
    simp only [List.map_cons, List.flatten_cons, List.length_cons, List.append_assoc,
      readInstructions]
    rw [read_instruction_as_bytes i _ (fun v hv => h v (by simp [hv]))]
    have ih' := ih (fun v hv => h v (List.mem_cons_of_mem _ hv))
    simp only [bind, Except.bind]
    rw [ih']

theorem take_app {α : Type _} {n : Nat} {l₁ l₂ : List α} (h : l₁.length = n) :
    (l₁ ++ l₂).take n = l₁ := by rw [← h, List.take_left]

theorem drop_app {α : Type _} {n : Nat} {l₁ l₂ : List α} (h : l₁.length = n) :
    (l₁ ++ l₂).drop n = l₂ := by rw [← h, List.drop_left]

/-- The byte-level round trip the spec's §8 asserts, for the consistent
encoder/decoder pair: saving a program through the container and loading it
back reproduces it, for any program whose `Push` operands are `i64` values and
whose length fits the raw `usize` header. The stale encoder of
src/src/instruction.rs breaks this; see `claim_C1_save_load_altered`. -/
theorem load_from_save_to (is : List Instruction)
    (hlen : is.length < 2 ^ 64)
    (h : ∀ v, Instruction.Push v ∈ is → -(2 ^ 63) ≤ v ∧ v < 2 ^ 63) :
    load_from (save_to is) = .ok is := by
  have h5 : MAGIC.length = 5 := rfl
  have h8 : (u64leBytes is.length).length = 8 := bytesLE_length 8 _
  have hn : leNat (u64leBytes is.length) = is.length := by
    apply leNat_bytesLE
    have e : (256 : Nat) ^ 8 = 2 ^ 64 := by norm_num
    rw [e]; exact hlen
  have hassoc : save_to is =
      MAGIC ++ (u64leBytes is.length ++ (is.map Instruction.as_bytes).flatten) := by
    simp [save_to, List.append_assoc]
  have hread := readInstructions_as_bytes is [] h
  rw [List.append_nil] at hread
  rw [hassoc]
  unfold load_from
  simp only [take_app h5, drop_app h5, take_app h8, drop_app h8, hn]
  rw [if_neg (by simp [MAGIC]), if_neg (by simp), if_neg (by rw [List.length_append, h8]; omega)]
  rw [hread]

/-- A closed witness instantiating `load_from_save_to`, evaluated on a concrete
program. -/
theorem load_from_save_to_instance :
    load_from (save_to [Instruction.Push (-3), Instruction.Jz, Instruction.Exit]) =
      .ok [Instruction.Push (-3), Instruction.Jz, Instruction.Exit] :=
  load_from_save_to _ (by decide) (fun v hv => by
    simp at hv
    subst hv
    decide)

/-! Theorems settling the frozen claims. -/

/-- Claim C1 (status: code_bug). The claim — saving any program through the
binary container and loading it back yields an identical instruction sequence —
is broken by the checked-in code: `Binary::save_to` serializes through the
stale `Instruction::as_bytes` of src/src/instruction.rs, which appends an
8-byte operand after `Jz`, while `read_instruction` of src/src/binary.rs reads
no operand for opcode 4. Saving the two-instruction program `[Jz 4, Exit]` and
loading it back yields `[Jz, Jz]`: the operand bytes of the first instruction
are decoded as a second `Jz`, and the original second instruction (`EXIT`) is
replaced. -/
theorem claim_C1_save_load_altered :
    load_from (save_to_legacy [Legacy.Instruction.Jz 4, Legacy.Instruction.Exit]) =
      .ok [Instruction.Jz, Instruction.Jz] ∧
    Instruction.mnemonic Instruction.Jz ≠ Legacy.Instruction.mnemonic Legacy.Instruction.Exit := by
  decide

/-- Claim C2 (status: code_bug). The claim — a 2-byte little-endian opcode id
followed by an 8-byte operand only for `Push`, all other variants exactly
2 bytes — contradicts the stale `Instruction::as_bytes` of
src/src/instruction.rs, which also emits the 8-byte operand for `Jz`, `Jnz`
and `Jmp`: the encoding of `Jz(0)` is 10 bytes, not 2. (The decoder
`read_instruction` in src/src/binary.rs agrees with the claim, reading an
operand for opcode 0 only — the repository contradicts itself.) -/
theorem claim_C2_jz_encodes_ten_bytes :
    Legacy.Instruction.as_bytes (.Jz 0) = [4, 0, 0, 0, 0, 0, 0, 0, 0, 0] ∧
    (Legacy.Instruction.as_bytes (.Jz 0)).length = 10 := by
  decide

/-- Claim C5 (status: code_bug). The claim — `set_arg` mutates the operand of
`Push` only and is a silent no-op on every other variant — contradicts the
checked-in `Instruction::set_arg` (src/src/instruction.rs lines 60-65), whose
first arm is `Self::Push(a) | Self::Jmp(a) => *a = arg`: it also mutates the
operand of `Jmp`. -/
theorem claim_C5_set_arg_mutates_jmp :
    Legacy.Instruction.set_arg (.Jmp 0) 5 = .Jmp 5 ∧
    Legacy.Instruction.set_arg (.Jmp 0) 5 ≠ .Jmp 0 := by
  decide

/-! Supporting lemmas for the interpreter claims: a successful `pop_stack`,
`bin_op` or non-`Exit` `evalInstr` step never changes the exit code, and a
continued breakpoint leaves the machine untouched. -/

theorem pop_stack_ok_exited {m m' : StackMachine} {s : String} {v : Value}
    (h : m.pop_stack s = (.ok v, m')) : m'.exited = m.exited := by
  unfold StackMachine.pop_stack at h
  rcases hs : m.stack with _ | ⟨a, rest⟩ <;> rw [hs] at h
  · simp [StackMachine.panic] at h
  · injection h with h1 h2
    subst h2
    rfl

theorem bin_op_ok_exited {op : Instruction} {m m' : StackMachine}
    (h : bin_op op m = (.ok, m')) : m'.exited = m.exited := by
  rcases hs : m.stack with _ | ⟨a, rest⟩
  · simp [bin_op, StackMachine.pop_stack, hs, StackMachine.panic] at h
  · rcases rest with _ | ⟨b, rest'⟩
    · simp [bin_op, StackMachine.pop_stack, hs, StackMachine.panic] at h
    · cases op
      case Div =>
        simp only [bin_op, StackMachine.pop_stack, hs, StackMachine.panic,
          Instruction.mnemonic] at h
        split_ifs at h
        · injection h with h1 h2; exact EvalResult.noConfusion h1
        · injection h with h1 h2; exact EvalResult.noConfusion h1
        · injection h with h1 h2; subst h2; rfl
      all_goals
        simp [bin_op, StackMachine.pop_stack, hs, StackMachine.panic,
          Instruction.mnemonic] at h
      all_goals (subst h; rfl)

theorem evalInstr_ok_exited {i : Instruction} {w w' : World}
    (h : evalInstr i w = (.ok, w')) (hne : i ≠ Instruction.Exit) :
    w'.machine.exited = w.machine.exited := by
  cases i
  case Exit => exact absurd rfl hne
  case Push v =>
    simp only [evalInstr] at h
    injection h with h1 h2
    subst h2
    rfl
  case Add =>
    rcases hb : bin_op .Add w.machine with ⟨r, m2⟩
    simp only [evalInstr, hb] at h
    cases r
    case ok =>
      injection h with h1 h2
      subst h2
      exact bin_op_ok_exited hb
    all_goals (injection h with h1 h2; exact EvalResult.noConfusion h1)
  case Sub =>
    rcases hb : bin_op .Sub w.machine with ⟨r, m2⟩
    simp only [evalInstr, hb] at h
    cases r
    case ok =>
      injection h with h1 h2
      subst h2
      exact bin_op_ok_exited hb
    all_goals (injection h with h1 h2; exact EvalResult.noConfusion h1)
  case Mul =>
    rcases hb : bin_op .Mul w.machine with ⟨r, m2⟩
    simp only [evalInstr, hb] at h
    cases r
    case ok =>
      injection h with h1 h2
      subst h2
      exact bin_op_ok_exited hb
    all_goals (injection h with h1 h2; exact EvalResult.noConfusion h1)
  case Div =>
    rcases hb : bin_op .Div w.machine with ⟨r, m2⟩
    simp only [evalInstr, hb] at h
    cases r
    case ok =>
      injection h with h1 h2
      subst h2
      exact bin_op_ok_exited hb
    all_goals (injection h with h1 h2; exact EvalResult.noConfusion h1)
  case Printstr =>
    rcases hp : printstrAux w.machine.instruction_ptr w.machine.stack with ⟨r2, s2, out2⟩
    simp only [evalInstr, hp] at h
    cases r2
    case ok =>
      injection h with h1 h2
      subst h2
      rfl
    case error e =>
      injection h with h1 h2
      exact EvalResult.noConfusion h1
  all_goals (
    rcases hs : w.machine.stack with _ | ⟨a, rest⟩
    · simp [evalInstr, StackMachine.pop_stack, StackMachine.panic, hs] at h
    · rcases rest with _ | ⟨b, rest'⟩ <;>
        simp only [evalInstr, StackMachine.pop_stack, StackMachine.panic, hs] at h <;>
        (try split_ifs at h) <;>
        (injection h with h1 h2
         first
           | (subst h2; rfl)
           | exact EvalResult.noConfusion h1))

theorem bpLoop_ok_machine (m : StackMachine) :
    ∀ input : List String, (bpLoop m input).1 = .ok () → (bpLoop m input).2.1 = m := by
  intro input
  induction input with
  | nil => intro _; rfl
  | cons s rest ih =>
    intro hok
    simp only [bpLoop] at hok ⊢
    split_ifs at hok ⊢ with h1 h2
    all_goals first
      | rfl
      | (exact ih hok)

theorem handle_breakpoint_ok_machine {instrs : List Instruction} {w : World}
    (h : (handle_breakpoint instrs w).1 = .ok ()) :
    (handle_breakpoint instrs w).2.machine = w.machine := by
  unfold handle_breakpoint at h ⊢
  dsimp only at h ⊢
  rcases hb : bpLoop w.machine w.input with ⟨r, m', rem, out⟩
  rw [hb] at h
  have hm := bpLoop_ok_machine w.machine w.input
  rw [hb] at hm
  exact hm h

theorem eval_ok_exited {i : Instruction} {instrs : List Instruction} {w w' : World}
    (h : eval i instrs w = (.ok, w')) (hne : i ≠ Instruction.Exit) :
    w'.machine.exited = w.machine.exited := by
  unfold eval at h
  split_ifs at h with hbp
  · rcases hh : handle_breakpoint instrs w with ⟨r, w1⟩
    rw [hh] at h
    cases r with
    | error e => simp at h
    | ok u =>
      simp only at h
      have hm : w1.machine = w.machine := by
        have hok : (handle_breakpoint instrs w).1 = .ok () := by rw [hh]
        have h2 := handle_breakpoint_ok_machine hok
        rw [hh] at h2
        exact h2
      rw [evalInstr_ok_exited h hne, hm]
  · exact evalInstr_ok_exited h hne

/-- Claim C3, counterexample. With a zero divisor beneath the top of the stack,
`Div` does not produce the claimed defined execution-fault outcome: the result
is a host panic (`a / b` in Rust aborts the process with "attempt to divide by
zero"), and the machine is not moved to halted-on-fault (its exit code is still
unset). -/
theorem claim_C3_div_zero_not_a_fault :
    (eval .Div [.Div] ⟨⟨0, [10, 0], none, 80, DebugInfo.default⟩, [], []⟩).1 =
      .panicked "attempt to divide by zero" ∧
    (eval .Div [.Div] ⟨⟨0, [10, 0], none, 80, DebugInfo.default⟩, [], []⟩).2.machine.exited =
      none := by
  decide

/-- Claim C3 as amended (status: corrected). Evaluating `Div` when the divisor
popped second is 0 (and no breakpoint intervenes) crashes with the
host-language divide-by-zero panic for every such stack; it is not reported as
an execution fault and the exit code is left unchanged. -/
theorem claim_C3_amended_div_zero_panics (m : StackMachine) (a : Value) (rest : List Value)
    (instrs : List Instruction) (input : List String) (output : List OutEvent)
    (hstack : m.stack = a :: 0 :: rest)
    (hbp : m.debug_info.breakpoint_at (usizeToI64 m.instruction_ptr) = false) :
    (eval .Div instrs ⟨m, input, output⟩).1 = .panicked "attempt to divide by zero" ∧
    (eval .Div instrs ⟨m, input, output⟩).2.machine.exited = m.exited := by
  simp [eval, evalInstr, bin_op, StackMachine.pop_stack, hstack, hbp, Instruction.mnemonic]

/-- Witness for `claim_C3_amended_div_zero_panics` at a concrete machine. -/
theorem claim_C3_amended_witness :
    (eval .Div [.Div] ⟨⟨0, [7, 0], none, 80, DebugInfo.default⟩, [], []⟩).1 =
      .panicked "attempt to divide by zero" ∧
    (eval .Div [.Div] ⟨⟨0, [7, 0], none, 80, DebugInfo.default⟩, [], []⟩).2.machine.exited =
      (⟨0, [7, 0], none, 80, DebugInfo.default⟩ : StackMachine).exited :=
  claim_C3_amended_div_zero_panics ⟨0, [7, 0], none, 80, DebugInfo.default⟩ 7 [] [.Div] [] []
    rfl (by decide)

/-- Claim C4, counterexample. Two machines identical but for one registered
breakpoint at the current address, both with the verbosity flag false: the
breakpoint machine renders the disassembly, consumes the confirmation line and
aborts with a fault on the answer `N`, while the breakpoint-free machine
evaluates normally — `eval` checks only `breakpoint_at`, never the verbosity
flag (src/src/stack_machine.rs line 168). -/
theorem claim_C4_breakpoint_fires_without_verbose :
    (⟨[0], [], false⟩ : DebugInfo).verbose = false ∧
    (eval .Exit [.Exit] ⟨⟨0, [], none, 80, ⟨[0], [], false⟩⟩, ["N"], []⟩).1 =
      .fault ⟨0, "execution aborted at breakpoint"⟩ ∧
    (eval .Exit [.Exit] ⟨⟨0, [], none, 80, ⟨[], [], false⟩⟩, ["N"], []⟩).1 = .ok ∧
    (eval .Exit [.Exit] ⟨⟨0, [], none, 80, ⟨[0], [], false⟩⟩, ["N"], []⟩).2.input = [] ∧
    (eval .Exit [.Exit] ⟨⟨0, [], none, 80, ⟨[], [], false⟩⟩, ["N"], []⟩).2.input = ["N"] ∧
    (eval .Exit [.Exit] ⟨⟨0, [], none, 80, ⟨[], [], false⟩⟩, ["N"], []⟩).2.output = [] ∧
    (eval .Exit [.Exit] ⟨⟨0, [], none, 80, ⟨[0], [], false⟩⟩, ["N"], []⟩).2.output =
      [.disassembly [.Exit] 0 [], .breakpointPrompt] := by
  decide

/-- Claim C4 as amended (status: corrected). A registered breakpoint at the
current address triggers the interactive handler regardless of the verbosity
flag: the disassembly is rendered, the confirmation line is consumed, and an
`N` answer aborts with the breakpoint fault. The flag gates only the one-time
disassembly dump at the start of `run`. -/
theorem claim_C4_amended_breakpoint_ignores_verbose (m : StackMachine) (i : Instruction)
    (instrs : List Instruction) (s : String) (rest : List String) (output : List OutEvent)
    (_hv : m.debug_info.verbose = false)
    (hbp : m.debug_info.breakpoint_at (usizeToI64 m.instruction_ptr) = true)
    (hn : upperStr (trimStr s) = "N") :
    eval i instrs ⟨m, s :: rest, output⟩ =
      (.fault ⟨m.instruction_ptr, "execution aborted at breakpoint"⟩,
       ⟨{ m with exited := some 255 }, rest,
        output ++ [.disassembly instrs m.instruction_ptr m.stack, .breakpointPrompt]⟩) := by
  simp [eval, hbp, handle_breakpoint, bpLoop, hn, StackMachine.panic]

/-- Witness for `claim_C4_amended_breakpoint_ignores_verbose` at a concrete
machine. -/
theorem claim_C4_amended_witness :
    eval .Exit [.Exit] ⟨⟨0, [], none, 80, ⟨[0], [], false⟩⟩, ["N"], []⟩ =
      (.fault ⟨0, "execution aborted at breakpoint"⟩,
       ⟨⟨0, [], some 255, 80, ⟨[0], [], false⟩⟩, [],
        [.disassembly [.Exit] 0 [], .breakpointPrompt]⟩) :=
  claim_C4_amended_breakpoint_ignores_verbose ⟨0, [], none, 80, ⟨[0], [], false⟩⟩ .Exit [.Exit]
    "N" [] [] rfl (by decide) (by decide)

/-- Claim C6 (status: code_bug). A stack underflow on the second (condition)
pop of `Jnz` reports the mnemonic `JZ`, not `JNZ`: source line 208 of
src/src/stack_machine.rs passes the string "JZ" inside the `Jnz` arm. The
claim (and the spec) say the fault names the mnemonic of the instruction being
evaluated. -/
theorem claim_C6_jnz_underflow_names_jz :
    (eval .Jnz [.Jnz] ⟨⟨0, [5], none, 80, DebugInfo.default⟩, [], []⟩).1 =
      .fault ⟨0, "not enough values on stack for `JZ`"⟩ ∧
    Instruction.mnemonic .Jnz = "JNZ" := by
  decide

/-- Claim C9 (status: confirmed). First conjunct: when the machine is running
(no exit code) and the pointer is outside the program, the run loop faults with
"no instruction left" at the current address, setting the sentinel exit
code 255 — never a silent success. Second conjunct: every run that ends with
`.exit code` from a running machine reaches, through successful evaluation
steps, a state whose fetched instruction is `Exit`, and that `Exit` step sets
the exit code the run returns. -/
theorem claim_C9_run_termination :
    (∀ (fuel : Nat) (instrs : List Instruction) (w : World),
      w.machine.exited = none → ¬ w.machine.instruction_ptr < instrs.length → 0 < fuel →
      runLoop fuel instrs w =
        (.fault ⟨w.machine.instruction_ptr, "no instruction left"⟩,
         { w with machine := { w.machine with exited := some 255 } })) ∧
    (∀ (fuel : Nat) (instrs : List Instruction) (w wfin : World) (code : Int),
      w.machine.exited = none → runLoop fuel instrs w = (.exit code, wfin) →
      ∃ w₀ w₁ : World, Relation.ReflTransGen (StepOk instrs) w w₀ ∧
        w₀.machine.exited = none ∧
        instrs[w₀.machine.instruction_ptr]? = some .Exit ∧
        eval .Exit instrs w₀ = (.ok, w₁) ∧
        w₁.machine.exited = some code) := by
  constructor
  · intro fuel instrs w hex hip hf
    cases fuel with
    | zero => omega
    | succ f =>
      rw [runLoop, dif_neg (by tauto)]
      simp [hex, StackMachine.panic]
  · intro fuel
    induction fuel with
    | zero =>
      intro instrs w wfin code hex hrun
      simp [runLoop] at hrun
    | succ f ih =>
      intro instrs w wfin code hex hrun
      by_cases hip : w.machine.instruction_ptr < instrs.length
      · rw [runLoop, dif_pos ⟨hex, hip⟩] at hrun
        rcases he : eval (instrs.get ⟨w.machine.instruction_ptr, hip⟩) instrs w with ⟨r, w'⟩
        rw [he] at hrun
        cases r with
        | fault e => exact absurd (congrArg Prod.fst hrun) (by simp)
        | panicked msg => exact absurd (congrArg Prod.fst hrun) (by simp)
        | ok =>
          by_cases hex' : w'.machine.exited = none
          · obtain ⟨w₀, w₁, hchain, hx0, hfetch, hev, hx1⟩ := ih instrs w' wfin code hex' hrun
            refine ⟨w₀, w₁, Relation.ReflTransGen.head ?_ hchain, hx0, hfetch, hev, hx1⟩
            refine ⟨instrs.get ⟨w.machine.instruction_ptr, hip⟩, hex, ?_, he⟩
            rw [List.getElem?_eq_getElem hip]
            rfl
          · have hexitI : instrs.get ⟨w.machine.instruction_ptr, hip⟩ = .Exit := by
              by_contra hne
              exact hex' (by rw [eval_ok_exited he hne, hex])
            rcases hc : w'.machine.exited with _ | c
            · exact absurd hc hex'
            · cases f with
              | zero => simp [runLoop] at hrun
              | succ f' =>
                simp only [runLoop] at hrun
                rw [dif_neg (by simp [hc])] at hrun
                rw [hc] at hrun
                have hr1 := congrArg Prod.fst hrun
                have hr2 := congrArg Prod.snd hrun
                simp at hr1 hr2
                refine ⟨w, w', Relation.ReflTransGen.refl, hex, ?_, ?_, ?_⟩
                · rw [List.getElem?_eq_getElem hip, ← hexitI]
                  rfl
                · rw [← hexitI]; exact he
                · rw [hc, hr1]
      · rw [runLoop, dif_neg (by tauto)] at hrun
        rw [hex] at hrun
        exact absurd (congrArg Prod.fst hrun) (by simp)

/-- Witness for `claim_C9_run_termination`: the empty program faults with
"no instruction left" at address 0, and the one-instruction program `EXIT`
exits through that `Exit` with code 0. -/
theorem claim_C9_witness :
    (runLoop 1 [] ⟨⟨0, [], none, 80, DebugInfo.default⟩, [], []⟩ =
      (.fault ⟨0, "no instruction left"⟩,
       ⟨⟨0, [], some 255, 80, DebugInfo.default⟩, [], []⟩)) ∧
    (∃ w₀ w₁ : World, Relation.ReflTransGen (StepOk [Instruction.Exit])
        ⟨⟨0, [], none, 80, DebugInfo.default⟩, [], []⟩ w₀ ∧
      w₀.machine.exited = none ∧
      ([Instruction.Exit])[w₀.machine.instruction_ptr]? = some .Exit ∧
      eval .Exit [Instruction.Exit] w₀ = (.ok, w₁) ∧
      w₁.machine.exited = some 0) :=
  ⟨claim_C9_run_termination.1 1 [] ⟨⟨0, [], none, 80, DebugInfo.default⟩, [], []⟩ rfl
      (by decide) (by decide),
   claim_C9_run_termination.2 3 [Instruction.Exit] ⟨⟨0, [], none, 80, DebugInfo.default⟩, [], []⟩
      ⟨⟨1, [], some 0, 80, DebugInfo.default⟩, [], []⟩ 0 rfl (by decide)⟩

/-- Claim C10 (status: confirmed). Every two-pop instruction (`Add`, `Sub`,
`Mul`, `Div`, `Swap`, `Jz`, `Jnz`) evaluated on a stack holding exactly one
value faults on the second pop with the stack left empty: the first popped
value is consumed and not restored, and the machine is halted-on-fault with
the sentinel exit code 255, so the pre-instruction stack is unrecoverable. -/
theorem claim_C10_two_pop_underflow_consumes (op : Instruction) (m : StackMachine)
    (v : Value) (instrs : List Instruction) (input : List String) (output : List OutEvent)
    (hop : op = .Add ∨ op = .Sub ∨ op = .Mul ∨ op = .Div ∨ op = .Swap ∨ op = .Jz ∨ op = .Jnz)
    (hstack : m.stack = [v])
    (hbp : m.debug_info.breakpoint_at (usizeToI64 m.instruction_ptr) = false) :
    ∃ e : ExecError,
      (eval op instrs ⟨m, input, output⟩).1 = .fault e ∧
      e.addr = m.instruction_ptr ∧
      (eval op instrs ⟨m, input, output⟩).2.machine.stack = [] ∧
      (eval op instrs ⟨m, input, output⟩).2.machine.exited = some 255 := by
  rcases hop with h | h | h | h | h | h | h <;> subst h <;>
    simp [eval, evalInstr, bin_op, StackMachine.pop_stack, StackMachine.panic, hstack, hbp,
      Instruction.mnemonic]

/-- Every `Ok` result of `parse_str_lit` is the unescaped literal content with
a NUL terminator appended (src/src/assembler.rs line 150). -/
theorem parse_str_lit_ok_shape {st : AsmParser} {s : String} {l : List Char}
    (h : st.parse_str_lit s = .ok l) : ∃ cs, l = cs ++ [Char.ofNat 0] := by
  unfold AsmParser.parse_str_lit at h
  by_cases hq : startsWithChar s '"' ∧ endsWithChar s '"'
  · rw [if_neg (by simpa using hq)] at h
    rcases ha : strLitContentAux st (s.data.drop 1).dropLast with e | cs <;>
      rw [ha] at h <;> simp only [bind, Except.bind] at h
    · simp at h
    · simp at h
      exact ⟨cs, h.symm⟩
  · rw [if_pos (by simpa using hq)] at h
    simp at h

/-- Claim C8 (status: confirmed). Whenever `@PushStr` accepts a string literal,
its expansion is exactly the accepted characters plus the NUL terminator,
reversed, as `Push` instructions of the character codes: the first emitted
instruction pushes the terminator 0 and the remaining ones push the characters
in reverse order, one `Push` per character plus one for the terminator (n + 1
in total); the assembler state is untouched. -/
theorem claim_C8_pushstr_expansion (st : AsmParser) (addr : Int) (s : String)
    (st' : AsmParser) (out : List Instruction)
    (h : st.parse_metainstruction "PushStr" (some s) addr = .ok (st', out)) :
    ∃ chars : List Char,
      st.parse_str_lit s = .ok (chars ++ [Char.ofNat 0]) ∧
      out = Instruction.Push 0 :: chars.reverse.map (fun c => Instruction.Push (c.toNat : Int)) ∧
      out.length = chars.length + 1 ∧
      st' = st := by
  have hz : ((Char.ofNat 0).toNat : Int) = 0 := rfl
  unfold AsmParser.parse_metainstruction at h
  rw [if_pos (by simp)] at h
  simp only [Option.getD] at h
  rcases hl : st.parse_str_lit s with e | l
  · rw [hl] at h
    simp only [bind, Except.bind] at h
    simp at h
  · obtain ⟨cs, rfl⟩ := parse_str_lit_ok_shape hl
    rw [hl] at h
    simp only [bind, Except.bind] at h
    injection h with h1
    injection h1 with h2 h3
    refine ⟨cs, rfl, ?_, ?_, h2.symm⟩
    · rw [← h3]
      simp [List.reverse_append, hz]
    · rw [← h3]
      simp

/-- Witness for `claim_C8_pushstr_expansion`: the literal `"hi"` expands to
`PUSH 0`, `PUSH 105` (i), `PUSH 104` (h). -/
theorem claim_C8_witness :
    ∃ chars : List Char,
      (AsmParser.new "f").parse_str_lit "\"hi\"" = .ok (chars ++ [Char.ofNat 0]) ∧
      ([Instruction.Push 0, Instruction.Push 105, Instruction.Push 104] : List Instruction) =
        Instruction.Push 0 :: chars.reverse.map (fun c => Instruction.Push (c.toNat : Int)) ∧
      ([Instruction.Push 0, Instruction.Push 105, Instruction.Push 104] :
          List Instruction).length = chars.length + 1 ∧
      AsmParser.new "f" = AsmParser.new "f" :=
  claim_C8_pushstr_expansion (AsmParser.new "f") 0 "\"hi\"" (AsmParser.new "f")
    [Instruction.Push 0, Instruction.Push 105, Instruction.Push 104] (by decide)

/-- Witness for `claim_C10_two_pop_underflow_consumes` at `Add` on the stack
`[7]`. -/
theorem claim_C10_witness :
    ∃ e : ExecError,
      (eval .Add [] ⟨⟨0, [7], none, 80, DebugInfo.default⟩, [], []⟩).1 = .fault e ∧
      e.addr = 0 ∧
      (eval .Add [] ⟨⟨0, [7], none, 80, DebugInfo.default⟩, [], []⟩).2.machine.stack = [] ∧
      (eval .Add [] ⟨⟨0, [7], none, 80, DebugInfo.default⟩, [], []⟩).2.machine.exited =
        some 255 :=
  claim_C10_two_pop_underflow_consumes .Add ⟨0, [7], none, 80, DebugInfo.default⟩ 7 [] [] []
    (Or.inl rfl) rfl (by decide)

/-! Supporting lemmas for the assembler claim: lookup characterizations of the
association-list embeddings of the label and relocation hash maps, state
characterizations of each assembler step, and the relocation invariant of the
line loop — after processing, a name has a pending relocation entry exactly
when some line references it and no line defines it. -/

theorem lookupA_nil {β : Type _} (n : String) : lookupA ([] : List (String × β)) n = none := rfl

theorem lookupA_cons {β : Type _} (p : String × β) (l : List (String × β)) (n : String) :
    lookupA (p :: l) n = if p.1 = n then some p.2 else lookupA l n := by
  by_cases h : p.1 = n
  · simp [lookupA, List.find?_cons, h]
  · simp [lookupA, List.find?_cons, h]

theorem lookupA_filter {β : Type _} (l : List (String × β)) (k n : String) :
    lookupA (l.filter (fun p => p.1 != k)) n = if n = k then none else lookupA l n := by
  induction l with
  | nil => simp [lookupA_nil]
  | cons p rest ih =>
    simp only [List.filter_cons]
    by_cases hpk : p.1 = k
    · rw [if_neg (by simp [hpk])]
      rw [ih, lookupA_cons]
      by_cases hnk : n = k
      · simp [hnk]
      · rw [if_neg hnk, if_neg hnk, if_neg (by rw [hpk]; exact fun e => hnk e.symm)]
    · rw [if_pos (by simp [hpk])]
      rw [lookupA_cons, lookupA_cons, ih]
      by_cases hpn : p.1 = n
      · rw [if_pos hpn, if_pos hpn, if_neg (fun e => hpk (hpn.trans e))]
      · rw [if_neg hpn, if_neg hpn]

theorem lookupA_insertA {β : Type _} (l : List (String × β)) (k : String) (v : β) (n : String) :
    (lookupA (insertA l k v) n).isSome ↔ n = k ∨ (lookupA l n).isSome := by
  unfold insertA
  rw [lookupA_cons]
  by_cases h : k = n
  · simp [h]
  · rw [if_neg h, lookupA_filter, if_neg (fun e => h e.symm)]
    constructor
    · exact Or.inr
    · rintro (rfl | hh)
      · exact absurd rfl h
      · exact hh

theorem lookupA_map_update (l : List (String × List Int)) (k : String) (a : Int) (n : String) :
    (lookupA (l.map (fun p => if p.1 == k then (p.1, p.2 ++ [a]) else p)) n).isSome ↔
      (lookupA l n).isSome := by
  induction l with
  | nil => simp [lookupA_nil]
  | cons p rest ih =>
    simp only [List.map_cons]
    by_cases hpk : p.1 = k
    · rw [if_pos (by simp [hpk])]
      rw [lookupA_cons, lookupA_cons]
      by_cases hpn : p.1 = n
      · simp [hpn]
      · simp only [hpn, if_neg hpn, if_false]
        exact ih
    · rw [if_neg (by simp [hpk])]
      rw [lookupA_cons, lookupA_cons]
      by_cases hpn : p.1 = n
      · simp [hpn]
      · simp only [hpn, if_neg hpn, if_false]
        exact ih

theorem lookupA_relocAdd (l : List (String × List Int)) (k : String) (a : Int) (n : String) :
    (lookupA (relocAdd l k a) n).isSome ↔ n = k ∨ (lookupA l n).isSome := by
  unfold relocAdd
  by_cases hk : (lookupA l k).isSome
  · rw [if_pos hk, lookupA_map_update]
    constructor
    · exact Or.inr
    · rintro (rfl | h)
      · exact hk
      · exact h
  · rw [if_neg hk, lookupA_cons]
    by_cases hnk : k = n
    · simp [hnk]
    · rw [if_neg hnk]
      constructor
      · exact Or.inr
      · rintro (rfl | hh)
        · exact absurd rfl hnk
        · exact hh

theorem eq_nil_of_no_keys (l : List (String × List Int))
    (h : ∀ n, ¬ (lookupA l n).isSome) : l = [] := by
  cases l with
  | nil => rfl
  | cons p rest => exact absurd (by simp [lookupA_cons]) (h p.1)

theorem definesLabel_nil (n : String) : ¬ definesLabel [] n := by simp [definesLabel]

theorem referencesLabel_nil (n : String) : ¬ referencesLabel [] n := by simp [referencesLabel]

theorem definesLabel_cons (l : String) (rest : List String) (n : String) :
    definesLabel (l :: rest) n ↔ lineLabel? l = some n ∨ definesLabel rest n := by
  simp [definesLabel]

theorem referencesLabel_cons (l : String) (rest : List String) (n : String) :
    referencesLabel (l :: rest) n ↔ lineRef? l = some n ∨ referencesLabel rest n := by
  simp [referencesLabel]

theorem parse_metainstruction_ok_state {st : AsmParser} {name : String} {arg : Option String}
    {addr : Int} {st' : AsmParser} {out : List Instruction}
    (h : st.parse_metainstruction name arg addr = .ok (st', out)) :
    st'.labels = st.labels ∧ st'.relocs = st.relocs ∧ st'.lineno = st.lineno ∧
      st'.filepath = st.filepath := by
  unfold AsmParser.parse_metainstruction at h
  split_ifs at h
  all_goals (try (rcases hl : st.parse_str_lit (arg.getD "") with e | l <;> rw [hl] at h <;>
    simp only [bind, Except.bind] at h))
  all_goals first
    | (injection h with h1
       injection h1 with h2 h3
       rw [← h2]
       exact ⟨rfl, rfl, rfl, rfl⟩)
    | simp at h

theorem parse_instruction_ok_state {st : AsmParser} {mn : String} {arg : Option String}
    {addr : Int} {st' : AsmParser} {i : Instruction}
    (h : st.parse_instruction mn arg addr = .ok (st', i)) :
    st' = (st.parse_arg arg addr).2 := by
  unfold AsmParser.parse_instruction at h
  split at h
  all_goals
    (try (rcases hp : (st.parse_arg arg addr).1 with _ | v <;> simp only [hp] at h))
  all_goals
    first
      | (injection h with h1; injection h1 with h2 h3; exact h2.symm)
      | simp_all

theorem parse_arg_fields (st : AsmParser) (arg : Option String) (addr : Int) :
    (st.parse_arg arg addr).2.labels = st.labels ∧
    (st.parse_arg arg addr).2.lineno = st.lineno ∧
    (st.parse_arg arg addr).2.filepath = st.filepath := by
  unfold AsmParser.parse_arg AsmParser.label_addr
  rcases arg with _ | a
  · exact ⟨rfl, rfl, rfl⟩
  · rcases hp : parseI64 a with _ | v
    · rcases hl : lookupA st.labels a with _ | v2 <;> simp [hp, hl]
    · simp [hp]

theorem parse_arg_relocs (st : AsmParser) (arg : Option String) (addr : Int) (n : String) :
    ((lookupA (st.parse_arg arg addr).2.relocs n).isSome ↔
      (lookupA st.relocs n).isSome ∨
      (arg = some n ∧ parseI64 n = none ∧ lookupA st.labels n = none)) := by
  unfold AsmParser.parse_arg AsmParser.label_addr
  rcases arg with _ | a
  · simp
  · rcases hp : parseI64 a with _ | v
    · rcases hl : lookupA st.labels a with _ | v2
      · simp only [hp, hl]
        rw [lookupA_relocAdd]
        constructor
        · rintro (rfl | hh)
          · exact Or.inr ⟨rfl, hp, hl⟩
          · exact Or.inl hh
        · rintro (hh | ⟨he, h2, h3⟩)
          · exact Or.inr hh
          · injection he with he
            exact Or.inl he.symm
      · simp only [hp, hl]
        constructor
        · exact Or.inl
        · rintro (hh | ⟨he, h2, h3⟩)
          · exact hh
          · injection he with he
            rw [he] at hl
            rw [hl] at h3
            cases h3
    · simp only [hp]
      constructor
      · exact Or.inl
      · rintro (hh | ⟨he, h2, h3⟩)
        · exact hh
        · injection he with he
          rw [he] at hp
          rw [hp] at h2
          cases h2

theorem parse_line_ok_state {st : AsmParser} {line : String} {ins : List Instruction}
    {st2 : AsmParser} {patched : List Instruction} {out : Option (List Instruction)}
    (h : st.parse_line line ins = .ok (st2, patched, out)) (n : String) :
    st2.filepath = st.filepath ∧
    ((lookupA st2.labels n).isSome ↔
      (lookupA st.labels n).isSome ∨ lineLabel? line = some n) ∧
    ((lookupA st2.relocs n).isSome ↔
      lineLabel? line ≠ some n ∧
        ((lookupA st.relocs n).isSome ∨
         (lookupA st.labels n = none ∧ lineRef? line = some n))) := by
  unfold AsmParser.parse_line at h
  rcases hsh : lineShape line with _ | tok | name | ⟨name, arg⟩ | ⟨mn, arg⟩ <;>
    rw [hsh] at h <;> dsimp only at h <;> simp only [lineLabel?, lineRef?, hsh]
  · injection h with h1
    injection h1 with h2 h3
    rw [← h2]
    refine ⟨rfl, by simp, by simp⟩
  · simp at h
  · injection h with h1
    injection h1 with h2 h3
    rw [← h2]
    refine ⟨rfl, ?_, ?_⟩
    · simp only [lookupA_insertA]
      constructor
      · rintro (rfl | hh)
        · exact Or.inr rfl
        · exact Or.inl hh
      · rintro (hh | he)
        · exact Or.inr hh
        · injection he with he
          exact Or.inl he.symm
    · simp only [relocTake, lookupA_filter]
      by_cases hnn : n = name
      · subst hnn
        simp
      · rw [if_neg hnn]
        simp only [ne_eq, Option.some.injEq]
        constructor
        · intro hk
          exact ⟨fun e => hnn e.symm, Or.inl hk⟩
        · rintro ⟨-, hk | ⟨-, he⟩⟩
          · exact hk
          · cases he
  · rcases hm : st.parse_metainstruction name arg ins.length with e | ⟨stm, outm⟩ <;>
      rw [hm] at h <;> simp only [bind, Except.bind] at h
    · simp at h
    · injection h with h1
      injection h1 with h2 h3
      rw [← h2]
      obtain ⟨hl, hr, _, hf⟩ := parse_metainstruction_ok_state hm
      rw [hl, hr, hf]
      refine ⟨rfl, by simp, by simp⟩
  · rcases hm : st.parse_instruction mn arg ins.length with e | ⟨sti, instr⟩ <;>
      rw [hm] at h <;> simp only [bind, Except.bind] at h
    · simp at h
    · injection h with h1
      injection h1 with h2 h3
      rw [← h2]
      have hst := parse_instruction_ok_state hm
      subst hst
      obtain ⟨hl, _, hf⟩ := parse_arg_fields st arg ins.length
      rw [hl, hf]
      refine ⟨rfl, by simp, ?_⟩
      rw [parse_arg_relocs]
      rcases arg with _ | a
      · simp
      · simp only [ne_eq, Option.some.injEq, reduceCtorEq, not_false_iff, true_and]
        by_cases hp : (parseI64 a).isNone
        · rw [if_pos hp]
          simp only [Option.some.injEq]
          constructor
          · rintro (hk | ⟨he, h2, h3⟩)
            · exact Or.inl hk
            · exact Or.inr ⟨h3, he⟩
          · rintro (hk | ⟨h3, rfl⟩)
            · exact Or.inl hk
            · refine Or.inr ⟨rfl, ?_, h3⟩
              simpa using hp
        · rw [if_neg hp]
          constructor
          · rintro (hk | ⟨he, h2, h3⟩)
            · exact Or.inl hk
            · rw [← he] at h2
              rw [h2] at hp
              simp at hp
          · rintro (hk | ⟨-, he⟩)
            · exact Or.inl hk
            · cases he

theorem processLines_inv (lines : List String) :
    ∀ (st : AsmParser) (ins : List Instruction) (st' : AsmParser) (ins' : List Instruction),
      processLines st ins lines = .ok (st', ins') →
      ∀ n : String,
        st'.filepath = st.filepath ∧
        ((lookupA st'.labels n).isSome ↔
          (lookupA st.labels n).isSome ∨ definesLabel lines n) ∧
        ((lookupA st'.relocs n).isSome ↔
          ¬ definesLabel lines n ∧
            ((lookupA st.relocs n).isSome ∨
             (lookupA st.labels n = none ∧ referencesLabel lines n))) := by
  induction lines with
  | nil =>
    intro st ins st' ins' h n
    simp only [processLines] at h
    injection h with h1
    injection h1 with h2 h3
    subst h2
    refine ⟨rfl, ?_, ?_⟩
    · simp [definesLabel]
    · simp [definesLabel, referencesLabel]
  | cons l rest ih =>
    intro st ins st' ins' h n
    simp only [processLines] at h
    rcases hpl : ({ st with lineno := st.lineno + 1 } : AsmParser).parse_line l ins
        with e | ⟨st2, patched, out⟩ <;>
      rw [hpl] at h <;> simp only [bind, Except.bind] at h
    · simp at h
    · have hstep := parse_line_ok_state hpl n
      have hih := ih st2 (patched ++ out.getD []) st' ins' h n
      obtain ⟨hf2, hlab2, hrel2⟩ := hstep
      obtain ⟨hf', hlab', hrel'⟩ := hih
      dsimp only at hf2 hlab2 hrel2
      have hnone2 : (lookupA st2.labels n = none) ↔
          ¬ ((lookupA st.labels n).isSome ∨ lineLabel? l = some n) := by
        rw [← Option.not_isSome_iff_eq_none, hlab2]
      have hnone : (lookupA st.labels n = none) ↔ ¬ (lookupA st.labels n).isSome :=
        Option.not_isSome_iff_eq_none.symm
      refine ⟨hf'.trans hf2, ?_, ?_⟩
      · rw [hlab', hlab2, definesLabel_cons, or_assoc]
      · rw [hrel', hrel2, hnone2, hnone, definesLabel_cons, referencesLabel_cons]
        by_cases hL : lineLabel? l = some n <;>
          by_cases hDr : definesLabel rest n <;>
          by_cases hA : (lookupA st.labels n).isSome <;>
          simp [hL, hDr, hA, or_assoc]

/-- Claim C7 as amended (status: corrected). For a source whose every line
parses (the line loop succeeds): if every referenced label is defined somewhere
in the input, assembly succeeds; and for every label that is referenced but
never defined, assembly fails with the could-not-resolve error carrying the
final relocation table, in which that label's name appears (the relocation
table is empty at end of input exactly when every referenced label is
defined). -/
theorem claim_C7_amended_label_resolution (filepath : String) (lines : List String)
    (st' : AsmParser) (ins' : List Instruction)
    (hrun : processLines (AsmParser.new filepath) [] lines = .ok (st', ins')) :
    ((∀ n, referencesLabel lines n → definesLabel lines n) →
      assemble filepath lines = .ok ins') ∧
    (∀ n, referencesLabel lines n → ¬ definesLabel lines n →
      ∃ m : List (String × List Int),
        assemble filepath lines =
          .error (.parse ⟨.couldNotResolveLabels m, st'.filepath, st'.lineno⟩) ∧
        (lookupA m n).isSome) := by
  have hinv := processLines_inv lines (AsmParser.new filepath) [] st' ins' hrun
  constructor
  · intro hdef
    have hempty : st'.relocs = [] := by
      apply eq_nil_of_no_keys
      intro n hn
      have h2 := ((hinv n).2.2).mp hn
      rcases h2 with ⟨hnd, hk | ⟨-, hr⟩⟩
      · simp [AsmParser.new, lookupA] at hk
      · exact hnd (hdef n hr)
    unfold assemble
    rw [hrun]
    simp only [bind, Except.bind]
    rw [if_pos hempty]
  · intro n href hndef
    have hn : (lookupA st'.relocs n).isSome := by
      apply ((hinv n).2.2).mpr
      exact ⟨hndef, Or.inr ⟨rfl, href⟩⟩
    have hne : ¬ st'.relocs = [] := by
      intro he
      rw [he] at hn
      simp [lookupA] at hn
    refine ⟨st'.relocs, ?_, hn⟩
    unfold assemble
    rw [hrun]
    simp only [bind, Except.bind]
    rw [if_neg hne]
    rfl

/-- Claim C7, counterexample. As frozen, the claim's first half is false: the
one-line source `FOO` references no label at all, yet assembly fails (with a
no-such-mnemonic error), so "every referenced label defined implies assembly
succeeds" needs the lines themselves to be well-formed. -/
theorem claim_C7_needs_wellformed_lines :
    (∀ n : String, ¬ referencesLabel ["FOO"] n) ∧
    assemble "f" ["FOO"] = .error (.parse ⟨.noSuchMnemonic "FOO", "f", 1⟩) := by
  constructor
  · intro n h
    obtain ⟨l, hl, hr⟩ := h
    simp at hl
    subst hl
    rw [show lineRef? "FOO" = none from by decide] at hr
    cases hr
  · decide

/-- Witness for `claim_C7_amended_label_resolution`: the reference-free source
`EXIT` assembles, and `PUSH x` with `x` never defined fails naming `x`. -/
theorem claim_C7_amended_witness :
    (assemble "f" ["EXIT"] = .ok [Instruction.Exit]) ∧
    (∃ m : List (String × List Int),
      assemble "f" ["PUSH x"] =
        .error (.parse ⟨.couldNotResolveLabels m, "f", 1⟩) ∧
      (lookupA m "x").isSome) := by
  constructor
  · exact (claim_C7_amended_label_resolution "f" ["EXIT"]
      ⟨"f", 1, [], [], DebugInfo.default⟩ [Instruction.Exit] (by decide)).1
      (fun n h => absurd h (by
        rintro ⟨l, hl, hr⟩
        simp at hl
        subst hl
        rw [show lineRef? "EXIT" = none from by decide] at hr
        cases hr))
  · exact (claim_C7_amended_label_resolution "f" ["PUSH x"]
      ⟨"f", 1, [], [("x", [0])], DebugInfo.default⟩ [Instruction.Push 0] (by decide)).2
      "x" (by decide) (by decide)

end StackVM
